import Mathlib

/-!
Verification development for the webhook repository's PV/UV analytics
subsystem (`src/handlers/doc-status.js` and `src/handlers/doc-hook.js`).

Modelling conventions (shallow embedding):
* Calendar-day labels.  The source's `ymd` renders a millisecond timestamp
  as a local-calendar zero-padded `YYYY-MM-DD` string.  Those strings are in
  an order-preserving bijection with integer day indices (and JavaScript's
  lexicographic `Array.sort()` on the fixed-width labels agrees with integer
  order), so day labels are modelled as integers: `ymd tz ts` is the floored
  quotient of the locally-shifted timestamp by 86400000 ms, with `tz` the
  fixed local-time offset in milliseconds.
* JavaScript `Map` objects (insertion-ordered, update-in-place) are modelled
  as association lists with update-or-append semantics; `Set` objects as
  duplicate-free lists with append-if-new insertion.
* An event's `lastTs` field is `Option Int`: `some v` is a finite numeric
  value, `none` stands for any value whose numeric coercion is not a finite
  number (missing, NaN, non-numeric).  The source's
  `Number(r.lastTs || 0)` / `isFinite` / `<= 0` chain keeps an event exactly
  when its `lastTs` is a finite number strictly greater than zero, which is
  `isValidEvent` below.
* JavaScript string truthiness: the empty string is falsy, so optional
  string fields are plain `String` with `""` meaning absent.
* The filesystem is an explicit structure; file contents are modelled by
  whether they parse as a JSON array of read events.
-/

namespace Webhook

/-- `ymd` from doc-status.js lines 11-17: the local calendar-day label of a
millisecond timestamp, as an integer day index (see module comment). -/
def ymd (tz ts : Int) : Int := (ts + tz).fdiv 86400000

/-- One element of a per-document read log: `{ name, nickname, lastTs }`
(`UserReadInfo` in doc-hook.js). -/
structure ReadEvent where
  name : String
  nickname : String
  lastTs : Option Int
deriving DecidableEq

/-- `r.name || r.nickname || 'unknown'` (doc-status.js line 83). -/
def uidOf (r : ReadEvent) : String :=
  if r.name ≠ "" then r.name else if r.nickname ≠ "" then r.nickname else "unknown"

/-- The aggregation loop keeps an event iff `lastTs` coerces to a finite
number strictly greater than 0 (doc-status.js lines 77-78). -/
def isValidEvent (r : ReadEvent) : Bool :=
  match r.lastTs with
  | some ts => decide (0 < ts)
  | none => false

/-- One value of the `byDay` map: `{ pv, users:Set }`. -/
structure Bucket where
  pv : Nat
  users : List String
deriving DecidableEq

/-- JavaScript `Set.add`: append iff not already present. -/
def insertNew (s : List String) (x : String) : List String :=
  if x ∈ s then s else s ++ [x]

/-- JavaScript `Map.get` on the `byDay` map. -/
def mapFind : List (Int × Bucket) → Int → Option Bucket
  | [], _ => none
  | (k, v) :: rest, d => if k = d then some v else mapFind rest d

/-- JavaScript `Map.set` on the `byDay` map: replace in place, else append. -/
def mapSet : List (Int × Bucket) → Int → Bucket → List (Int × Bucket)
  | [], d, b => [(d, b)]
  | (k, v) :: rest, d, b => if k = d then (d, b) :: rest else (k, v) :: mapSet rest d b

/-- `byDay.get(day)` with the missing-day default `{ pv: 0, users: ∅ }`. -/
def bucketGetD (m : List (Int × Bucket)) (d : Int) : Bucket :=
  (mapFind m d).getD ⟨0, []⟩

/-- Mutable state of the aggregation loop (doc-status.js lines 72-74):
`byDay`, `totalPv`, `globalUsers`. -/
structure AggState where
  byDay : List (Int × Bucket)
  totalPv : Nat
  globalUsers : List String
deriving DecidableEq

/-- One iteration of the `for (const r of reads)` loop
(doc-status.js lines 76-87, identical in doc-hook.js lines 175-186). -/
def step (tz : Int) (st : AggState) (r : ReadEvent) : AggState :=
  match r.lastTs with
  | none => st
  | some ts =>
    if ts ≤ 0 then st
    else
      let day := ymd tz ts
      let b := bucketGetD st.byDay day
      let uid := uidOf r
      { byDay := mapSet st.byDay day ⟨b.pv + 1, insertNew b.users uid⟩
        totalPv := st.totalPv + 1
        globalUsers := insertNew st.globalUsers uid }

def initAggState : AggState := ⟨[], 0, []⟩

/-- The whole bucket-building loop over the read log. -/
def aggFold (tz : Int) (reads : List ReadEvent) : AggState :=
  reads.foldl (step tz) initAggState

/-- `getLastNDays` (doc-status.js lines 57-68): the labels of the `n`
calendar days ending on `endTs`'s day, ascending.  The source pushes
`ymd(end) - i` for `i = n-1 .. 0`; position `j` holds `ymd(end) - (n-1-j)`. -/
def getLastNDays (n : Nat) (tz endTs : Int) : List Int :=
  (List.range n).map (fun i : Nat => ymd tz endTs - ((n : Int) - 1 - (i : Int)))

/-- Accumulate a set: `for (const u of l) acc.add(u)`. -/
def addAll (acc : List String) (l : List String) : List String :=
  l.foldl insertNew acc

/-- The WAU loop (doc-status.js lines 109-115): union the user sets of the
buckets of the given days. -/
def collectUsers (m : List (Int × Bucket)) (ds : List Int) : List String :=
  ds.foldl
    (fun acc d =>
      match mapFind m d with
      | some b => addAll acc b.users
      | none => acc)
    []

/-- Result shape of the trailing-window aggregator (doc-status.js). -/
structure StatsWindow where
  days : List Int
  pvSeries : List Nat
  uvSeries : List Nat
  totalPv : Nat
  totalUv : Nat
  yesterdayDau : Nat
  wau : Nat
deriving DecidableEq

/-- `aggregateDailyPvUv` from doc-status.js lines 70-127 (trailing-window
variant): bucket all valid events, then read the series off a fixed 10-day
window ending today, plus yesterday-DAU and 7-day WAU. -/
def aggregateDailyPvUv (tz now : Int) (reads : List ReadEvent) : StatsWindow :=
  let st := aggFold tz reads
  let last10 := getLastNDays 10 tz now
  let pvSeries := last10.map (fun d => (bucketGetD st.byDay d).pv)
  let uvSeries := last10.map (fun d => (bucketGetD st.byDay d).users.length)
  let yesterday := ymd tz now - 1
  let yesterdayDau :=
    match mapFind st.byDay yesterday with
    | some b => b.users.length
    | none => 0
  let wau := (collectUsers st.byDay (getLastNDays 7 tz now)).length
  ⟨last10, pvSeries, uvSeries, st.totalPv, st.globalUsers.length, yesterdayDau, wau⟩

/-- Insert into a sorted list (ascending). -/
def insertSorted (x : Int) : List Int → List Int
  | [] => [x]
  | y :: ys => if x ≤ y then x :: y :: ys else y :: insertSorted x ys

/-- Ascending sort; models JavaScript `Array.sort()` on the fixed-width
day labels (whose lexicographic order is the integer order here) by its
result, an ascending permutation of the input. -/
def sortInts : List Int → List Int
  | [] => []
  | x :: xs => insertSorted x (sortInts xs)

/-- Result shape of the all-history aggregator (doc-hook.js). -/
structure StatsAll where
  days : List Int
  pvSeries : List Nat
  uvSeries : List Nat
  totalPv : Nat
  totalUv : Nat
deriving DecidableEq

/-- `aggregateDailyPvUv` from doc-hook.js lines 169-205 (all-history
variant): one bucket per active day, days sorted ascending
(`Array.from(byDay.keys()).sort()`; lexicographic label sort = integer sort
in this model). -/
def aggregateDailyPvUvAll (tz : Int) (reads : List ReadEvent) : StatsAll :=
  let st := aggFold tz reads
  let days := sortInts (st.byDay.map (fun p => p.1))
  let pvSeries := days.map (fun d => (bucketGetD st.byDay d).pv)
  let uvSeries := days.map (fun d => (bucketGetD st.byDay d).users.length)
  ⟨days, pvSeries, uvSeries, st.totalPv, st.globalUsers.length⟩

/-- How a stored file's bytes behave under `JSON.parse` + `Array.isArray`. -/
inductive FileContent where
  /-- `JSON.parse` throws. -/
  | invalid : FileContent
  /-- Parses, but not an array. -/
  | nonArray : FileContent
  /-- Parses as an array of read events. -/
  | array : List ReadEvent → FileContent
deriving DecidableEq

/-- One file of the storage directory: name, mtime, content. -/
structure StoredFile where
  fname : List Char
  mtimeMs : Int
  content : FileContent
deriving DecidableEq

/-- The storage directory: whether `fsp.access` succeeds, and its files. -/
structure FileSys where
  accessible : Bool
  files : List StoredFile
deriving DecidableEq

/-- Leading-match test on character lists. -/
def startsWithB : List Char → List Char → Bool
  | _, [] => true
  | [], _ :: _ => false
  | a :: as, b :: bs => a = b && startsWithB as bs

/-- JavaScript `String.includes`. -/
def containsB : List Char → List Char → Bool
  | [], pat => startsWithB [] pat
  | a :: t, pat => startsWithB (a :: t) pat || containsB t pat

/-- JavaScript `String.endsWith`. -/
def endsWithB (l pat : List Char) : Bool :=
  startsWithB l.reverse pat.reverse

/-- The candidate filter of `readLogForDoc` (doc-status.js line 28):
`f.endsWith('.json') && f.includes('_' + docId + '.')`. -/
def isCandidate (docId : String) (f : StoredFile) : Bool :=
  endsWithB f.fname ".json".data && containsB f.fname ("_" ++ docId ++ ".").data

/-- The latest-mtime scan of `readLogForDoc` (doc-status.js lines 36-45):
running target and running `latestMtime`, strict `>` updates. -/
def latestLoop : List StoredFile → StoredFile → Int → StoredFile
  | [], t, _ => t
  | f :: fs, t, latest =>
    if f.mtimeMs > latest then latestLoop fs f f.mtimeMs else latestLoop fs t latest

/-- File-selection phase of `readLogForDoc`: `none` when the directory is
inaccessible or no candidate matches; otherwise the single candidate, or
the latest-mtime scan over all of them starting from the first. -/
def targetFile (fs : FileSys) (docId : String) : Option StoredFile :=
  if fs.accessible = false then none
  else
    match fs.files.filter (isCandidate docId) with
    | [] => none
    | c :: rest => some (if rest.isEmpty then c else latestLoop (c :: rest) c 0)

/-- `readLogForDoc` (doc-status.js lines 19-55, identical in doc-hook.js
lines 131-167): resolve the record file, read it, and return its events;
every failure mode degrades to the empty history. -/
def readLogForDoc (fs : FileSys) (docId : String) : List ReadEvent :=
  match targetFile fs docId with
  | none => []
  | some f =>
    match f.content with
    | .array evs => evs
    | _ => []

/-- One value of `statsCache`: `{ date, stats }` (doc-status.js line 9). -/
structure CacheEntry where
  date : Int
  stats : StatsWindow
deriving DecidableEq

/-- The `statsCache` map, as an association list keyed by document id. -/
abbrev Cache := List (String × CacheEntry)

/-- `statsCache.get(docId)`. -/
def cacheFind : Cache → String → Option CacheEntry
  | [], _ => none
  | (k, v) :: rest, d => if k = d then some v else cacheFind rest d

/-- `statsCache.set(docId, e)`: replace in place, else append. -/
def cacheSet : Cache → String → CacheEntry → Cache
  | [], d, e => [(d, e)]
  | (k, v) :: rest, d, e =>
    if k = d then (d, e) :: rest else (k, v) :: cacheSet rest d e

/-- `getStats` (doc-status.js lines 129-138): return the cached stats when
not forcing and the entry was computed today; otherwise re-read the log,
aggregate, store under today's date, and return the fresh result. -/
def getStats (tz : Int) (fs : FileSys) (cache : Cache) (docId : String)
    (forceRefresh : Bool) (now : Int) : StatsWindow × Cache :=
  let today := ymd tz now
  match cacheFind cache docId with
  | some e =>
    if forceRefresh = false ∧ e.date = today then (e.stats, cache)
    else
      let stats := aggregateDailyPvUv tz now (readLogForDoc fs docId)
      (stats, cacheSet cache docId ⟨today, stats⟩)
  | none =>
    let stats := aggregateDailyPvUv tz now (readLogForDoc fs docId)
    (stats, cacheSet cache docId ⟨today, stats⟩)

/-- Process-wide mutable state of the stats handler: the cache and
`LastReloadTime` (doc-status.js lines 6-9). -/
structure SrvState where
  cache : Cache
  lastReloadTime : Int
deriving DecidableEq

/-- The stats-route handler's refresh gate plus lookup
(doc-status.js lines 290-298): downgrade a requested refresh inside the
30-minute (1800000 ms) cooldown; when a refresh is honored, record `now`
as the new `LastReloadTime`; then call `getStats`. -/
def handlerStep (tz : Int) (fs : FileSys) (st : SrvState) (docId : String)
    (refresh : Bool) (now : Int) : StatsWindow × SrvState :=
  let force := refresh
  let force := if force = true ∧ now - st.lastReloadTime < 1800000 then false else force
  let last := if force = true then now else st.lastReloadTime
  let r := getStats tz fs st.cache docId force now
  (r.1, ⟨r.2, last⟩)

/-- The `user` field of an ingestion payload. -/
structure HookUser where
  name : String
  nickname : String
deriving DecidableEq

/-- The ingestion request body (doc-hook.js line 22): `ts` is `Option Int`
(`none` = missing or non-numeric); `doc` is whether a truthy document
payload is present; string fields use `""` for missing. -/
structure HookBody where
  docName : String
  docId : String
  docType : String
  ts : Option Int
  user : Option HookUser
  doc : Bool
deriving DecidableEq

/-- The JSON payload shape the ingestion handler responds with. -/
structure HookResponse where
  code : Nat
  status : String
  message : String
deriving DecidableEq

/-- JavaScript falsiness of the `ts` field (`!ts`). -/
def tsFalsy : Option Int → Bool
  | none => true
  | some v => decide (v = 0)

/-- `fs.existsSync` + locate: first file with the given name. -/
def findFile : List StoredFile → List Char → Option StoredFile
  | [], _ => none
  | f :: fs, n => if f.fname = n then some f else findFile fs n

/-- `fs.writeFileSync`: overwrite in place, else create. -/
def writeFile (files : List StoredFile) (n : List Char) (c : FileContent)
    (mtime : Int) : List StoredFile :=
  match files with
  | [] => [⟨n, mtime, c⟩]
  | f :: fs => if f.fname = n then ⟨n, mtime, c⟩ :: fs else f :: writeFile fs n c mtime

/-- `` `${docName}_${docId}.${docType}` `` (doc-hook.js line 41). -/
def fileNameOf (b : HookBody) : List Char :=
  (b.docName ++ "_" ++ b.docId ++ "." ++ b.docType).data

/-- The error payload of doc-hook.js lines 25-38. -/
def missingFieldsResp : HookResponse :=
  ⟨1, "error", "Missing required fields"⟩

/-- The success payload of doc-hook.js lines 98-111. -/
def hookOkResp : HookResponse :=
  ⟨0, "ok", "Webhook received successfully"⟩

/-- The ingestion handler (doc-hook.js lines 18-112).  Validation up front:
any falsy required field short-circuits to the error payload with no write.
Otherwise, a truthy `doc` writes the content file (its markdown is not a
JSON array, modelled as `.invalid`), and a present `user` appends one
`ReadEvent` to the paired `.json` log via read-parse-push-write; a log
whose existing content is unparseable or not an array makes that
read-modify-write throw, which is caught and leaves storage unchanged. -/
def docHookHandler (b : HookBody) (files : List StoredFile) (nowMtime : Int) :
    HookResponse × List StoredFile :=
  if b.docName = "" ∨ b.docId = "" ∨ b.docType = "" ∨ tsFalsy b.ts = true then
    (missingFieldsResp, files)
  else
    let fname := fileNameOf b
    let files1 := if b.doc then writeFile files fname .invalid nowMtime else files
    let files2 :=
      match b.user with
      | none => files1
      | some u =>
        let logName := fname ++ ".json".data
        match findFile files1 logName with
        | none => writeFile files1 logName (.array [⟨u.name, u.nickname, b.ts⟩]) nowMtime
        | some f =>
          match f.content with
          | .array evs =>
            writeFile files1 logName (.array (evs ++ [⟨u.name, u.nickname, b.ts⟩])) nowMtime
          | _ => files1
    (hookOkResp, files2)

/-! Specification-side reference functions: the per-day counts and
unique-visitor cardinalities described by the spec, written directly as
list/finset operations over the event history (to be compared with the
aggregator's output). -/

/-- The events that survive the validity filter. -/
def validReads (reads : List ReadEvent) : List ReadEvent :=
  reads.filter isValidEvent

/-- The calendar-day label of an event. -/
def eventDay (tz : Int) (r : ReadEvent) : Int :=
  ymd tz (r.lastTs.getD 0)

/-- Valid events of one calendar day. -/
def readsOnDay (tz : Int) (reads : List ReadEvent) (d : Int) : List ReadEvent :=
  (validReads reads).filter (fun r => decide (eventDay tz r = d))

/-- Resolved subject identifiers of one calendar day's valid events. -/
def uidsOnDay (tz : Int) (reads : List ReadEvent) (d : Int) : List String :=
  (readsOnDay tz reads d).map uidOf

/-- Spec-side per-day page-view count: one per valid event of that day. -/
def dayPvSpec (tz : Int) (reads : List ReadEvent) (d : Int) : Nat :=
  (readsOnDay tz reads d).length

/-- Spec-side per-day unique-visitor cardinality. -/
def dayUvSpec (tz : Int) (reads : List ReadEvent) (d : Int) : Nat :=
  (uidsOnDay tz reads d).toFinset.card

/-- Spec-side global unique-visitor cardinality. -/
def totalUvSpec (reads : List ReadEvent) : Nat :=
  ((validReads reads).map uidOf).toFinset.card

/-- Spec-side union of the unique-visitor sets of a list of days. -/
def unionUsersSpec (tz : Int) (reads : List ReadEvent) (ds : List Int) : Finset String :=
  ds.foldr (fun d s => (uidsOnDay tz reads d).toFinset ∪ s) ∅

/-! Helper lemmas: the JavaScript `Set` model. -/

theorem mem_insertNew {s : List String} {x a : String} :
    a ∈ insertNew s x ↔ a ∈ s ∨ a = x := by
  unfold insertNew
  split
  · next h => simp only [iff_self_or]; rintro rfl; exact h
  · simp

theorem nodup_insertNew {s : List String} {x : String} (h : s.Nodup) :
    (insertNew s x).Nodup := by
  unfold insertNew
  split
  · exact h
  · next hx => simpa [List.nodup_append, h] using hx

theorem mem_addAll {acc l : List String} {a : String} :
    a ∈ addAll acc l ↔ a ∈ acc ∨ a ∈ l := by
  induction l generalizing acc with
  | nil => simp [addAll]
  | cons x xs ih =>
    show a ∈ addAll (insertNew acc x) xs ↔ _
    rw [ih, mem_insertNew]
    simp only [List.mem_cons]
    tauto

theorem nodup_addAll {acc l : List String} (h : acc.Nodup) :
    (addAll acc l).Nodup := by
  induction l generalizing acc with
  | nil => exact h
  | cons x xs ih => exact ih (nodup_insertNew h)

/-- A duplicate-free list with the same members as `l` has `l.toFinset.card`
elements. -/
theorem length_eq_card_toFinset {s l : List String}
    (hnd : s.Nodup) (hmem : ∀ a, a ∈ s ↔ a ∈ l) : s.length = l.toFinset.card := by
  have : s.toFinset = l.toFinset := by
    ext a
    simp [List.mem_toFinset, hmem]
  rw [← List.toFinset_card_of_nodup hnd, this]

/-! Helper lemmas: the JavaScript `Map` model. -/

theorem mapFind_mapSet_self (m : List (Int × Bucket)) (d : Int) (b : Bucket) :
    mapFind (mapSet m d b) d = some b := by
  induction m with
  | nil => simp [mapSet, mapFind]
  | cons kv rest ih =>
    obtain ⟨k, v⟩ := kv
    by_cases hk : k = d
    · simp [mapSet, hk, mapFind]
    · simp [mapSet, hk, mapFind, ih]

theorem mapFind_mapSet_ne (m : List (Int × Bucket)) {d d' : Int} (b : Bucket)
    (h : d' ≠ d) : mapFind (mapSet m d b) d' = mapFind m d' := by
  induction m with
  | nil => simp [mapSet, mapFind, Ne.symm h]
  | cons kv rest ih =>
    obtain ⟨k, v⟩ := kv
    by_cases hk : k = d
    · subst hk
      simp [mapSet, mapFind, Ne.symm h]
    · simp only [mapSet, if_neg hk, mapFind]
      split
      · rfl
      · exact ih

theorem mapFind_eq_none_iff {m : List (Int × Bucket)} {d : Int} :
    mapFind m d = none ↔ d ∉ m.map (fun p => p.1) := by
  induction m with
  | nil => simp [mapFind]
  | cons kv rest ih =>
    obtain ⟨k, v⟩ := kv
    by_cases hk : k = d
    · simp [mapFind, hk]
    · simp [mapFind, hk, ih, Ne.symm hk]

theorem mapSet_keys (m : List (Int × Bucket)) (d : Int) (b : Bucket) :
    (mapSet m d b).map (fun p => p.1) =
      if mapFind m d = none then m.map (fun p => p.1) ++ [d]
      else m.map (fun p => p.1) := by
  induction m with
  | nil => simp [mapSet, mapFind]
  | cons kv rest ih =>
    obtain ⟨k, v⟩ := kv
    by_cases hk : k = d
    · simp [mapSet, hk, mapFind]
    · simp only [mapSet, if_neg hk, mapFind, List.map_cons, ih]
      split <;> simp

theorem mapSet_pvsum_of_none {m : List (Int × Bucket)} {d : Int} (b : Bucket)
    (h : mapFind m d = none) :
    ((mapSet m d b).map (fun p => p.2.pv)).sum = (m.map (fun p => p.2.pv)).sum + b.pv := by
  induction m with
  | nil => simp [mapSet]
  | cons kv rest ih =>
    obtain ⟨k, v⟩ := kv
    by_cases hk : k = d
    · simp [mapFind, hk] at h
    · simp only [mapFind, if_neg hk] at h
      simp only [mapSet, if_neg hk, List.map_cons, List.sum_cons, ih h]
      omega

theorem mapSet_pvsum_of_some {m : List (Int × Bucket)} {d : Int} {b0 : Bucket} (b : Bucket)
    (h : mapFind m d = some b0) :
    ((mapSet m d b).map (fun p => p.2.pv)).sum + b0.pv =
      (m.map (fun p => p.2.pv)).sum + b.pv := by
  induction m with
  | nil => simp [mapFind] at h
  | cons kv rest ih =>
    obtain ⟨k, v⟩ := kv
    by_cases hk : k = d
    · simp only [mapFind, if_pos hk, Option.some.injEq] at h
      subst h
      simp [mapSet, hk]
      omega
    · simp only [mapFind, if_neg hk] at h
      simp only [mapSet, if_neg hk, List.map_cons, List.sum_cons]
      have := ih h
      omega

/-- With duplicate-free keys, every stored entry is what `mapFind` returns. -/
theorem mapFind_of_mem_nodup {m : List (Int × Bucket)} {k : Int} {v : Bucket}
    (hnd : (m.map (fun p => p.1)).Nodup) (hmem : (k, v) ∈ m) :
    mapFind m k = some v := by
  induction m with
  | nil => simp at hmem
  | cons kv rest ih =>
    obtain ⟨k', v'⟩ := kv
    simp only [List.map_cons, List.nodup_cons] at hnd
    rcases List.mem_cons.mp hmem with h | h
    · obtain ⟨rfl, rfl⟩ := Prod.mk.injEq .. ▸ h
      simp [mapFind]
    · have hk : k' ≠ k := by
        rintro rfl
        exact hnd.1 (List.mem_map.mpr ⟨(k', v), h, rfl⟩)
      simp [mapFind, hk, ih hnd.2 h]

/-! Helper lemmas: sorting. -/

theorem insertSorted_perm (x : Int) (l : List Int) :
    List.Perm (insertSorted x l) (x :: l) := by
  induction l with
  | nil => simp [insertSorted]
  | cons y ys ih =>
    unfold insertSorted
    split
    · exact List.Perm.refl _
    · exact ((ih.cons y).trans (List.Perm.swap x y ys))

theorem sortInts_perm (l : List Int) : List.Perm (sortInts l) l := by
  induction l with
  | nil => simp [sortInts]
  | cons x xs ih => exact (insertSorted_perm x (sortInts xs)).trans (ih.cons x) |>.trans (List.Perm.refl _)

theorem mem_sortInts {l : List Int} {d : Int} : d ∈ sortInts l ↔ d ∈ l :=
  (sortInts_perm l).mem_iff

/-! Helper lemmas: the window generator. -/

theorem getLastNDays_length (n : Nat) (tz endTs : Int) :
    (getLastNDays n tz endTs).length = n := by
  rw [getLastNDays, List.length_map, List.length_range]

theorem getLastNDays_getD {n i : Nat} (tz endTs : Int) (h : i < n) :
    (getLastNDays n tz endTs).getD i 0 = ymd tz endTs - ((n : Int) - 1 - (i : Int)) := by
  have hlen : i < (getLastNDays n tz endTs).length := by
    rw [getLastNDays_length]; exact h
  rw [List.getD_eq_getElem _ _ hlen]
  simp [getLastNDays, List.getElem_map]

/-! Helper lemmas: the spec-side reference functions under a one-event
extension of the history. -/

theorem validReads_append_invalid {reads : List ReadEvent} {r : ReadEvent}
    (h : isValidEvent r = false) : validReads (reads ++ [r]) = validReads reads := by
  simp [validReads, List.filter_append, h]

theorem validReads_append_valid {reads : List ReadEvent} {r : ReadEvent}
    (h : isValidEvent r = true) : validReads (reads ++ [r]) = validReads reads ++ [r] := by
  simp [validReads, List.filter_append, h]

theorem readsOnDay_append_invalid {tz : Int} {reads : List ReadEvent} {r : ReadEvent}
    (h : isValidEvent r = false) (d : Int) :
    readsOnDay tz (reads ++ [r]) d = readsOnDay tz reads d := by
  simp [readsOnDay, validReads_append_invalid h]

theorem readsOnDay_append_valid_self {tz : Int} {reads : List ReadEvent} {r : ReadEvent}
    (h : isValidEvent r = true) :
    readsOnDay tz (reads ++ [r]) (eventDay tz r) = readsOnDay tz reads (eventDay tz r) ++ [r] := by
  simp [readsOnDay, validReads_append_valid h, List.filter_append]

theorem readsOnDay_append_valid_ne {tz : Int} {reads : List ReadEvent} {r : ReadEvent}
    (h : isValidEvent r = true) {d : Int} (hd : d ≠ eventDay tz r) :
    readsOnDay tz (reads ++ [r]) d = readsOnDay tz reads d := by
  simp [readsOnDay, validReads_append_valid h, List.filter_append, Ne.symm hd]

theorem uidsOnDay_append_invalid {tz : Int} {reads : List ReadEvent} {r : ReadEvent}
    (h : isValidEvent r = false) (d : Int) :
    uidsOnDay tz (reads ++ [r]) d = uidsOnDay tz reads d := by
  simp [uidsOnDay, readsOnDay_append_invalid h]

theorem uidsOnDay_append_valid_self {tz : Int} {reads : List ReadEvent} {r : ReadEvent}
    (h : isValidEvent r = true) :
    uidsOnDay tz (reads ++ [r]) (eventDay tz r) =
      uidsOnDay tz reads (eventDay tz r) ++ [uidOf r] := by
  simp [uidsOnDay, readsOnDay_append_valid_self h]

theorem uidsOnDay_append_valid_ne {tz : Int} {reads : List ReadEvent} {r : ReadEvent}
    (h : isValidEvent r = true) {d : Int} (hd : d ≠ eventDay tz r) :
    uidsOnDay tz (reads ++ [r]) d = uidsOnDay tz reads d := by
  simp [uidsOnDay, readsOnDay_append_valid_ne h hd]

/-! The loop invariant of the aggregation fold: the mutable state is, at
every prefix of the history, exactly described by the spec-side reference
functions. -/

theorem aggFold_append_singleton (tz : Int) (reads : List ReadEvent) (r : ReadEvent) :
    aggFold tz (reads ++ [r]) = step tz (aggFold tz reads) r := by
  simp [aggFold, List.foldl_append]

theorem step_invalid {tz : Int} {st : AggState} {r : ReadEvent}
    (h : isValidEvent r = false) : step tz st r = st := by
  unfold step
  cases hts : r.lastTs with
  | none => rfl
  | some ts =>
    simp only [isValidEvent, hts, decide_eq_false_iff_not, Int.not_lt] at h
    simp [h]

theorem step_valid {tz : Int} {st : AggState} {r : ReadEvent} {ts : Int}
    (hts : r.lastTs = some ts) (hpos : 0 < ts) :
    step tz st r =
      { byDay := mapSet st.byDay (eventDay tz r)
          ⟨(bucketGetD st.byDay (eventDay tz r)).pv + 1,
            insertNew (bucketGetD st.byDay (eventDay tz r)).users (uidOf r)⟩
        totalPv := st.totalPv + 1
        globalUsers := insertNew st.globalUsers (uidOf r) } := by
  unfold step
  rw [hts]
  simp [show ¬ts ≤ 0 by omega, eventDay, hts]

theorem isValidEvent_iff {r : ReadEvent} :
    isValidEvent r = true ↔ ∃ ts, r.lastTs = some ts ∧ 0 < ts := by
  unfold isValidEvent
  cases hts : r.lastTs with
  | none => simp
  | some ts => simp [hts]

/-- Everything the aggregation loop's state promises about the history it
has consumed. -/
structure FoldInv (tz : Int) (reads : List ReadEvent) (st : AggState) : Prop where
  totalPv_eq : st.totalPv = (validReads reads).length
  global_nodup : st.globalUsers.Nodup
  global_mem : ∀ a, a ∈ st.globalUsers ↔ a ∈ (validReads reads).map uidOf
  keys_nodup : (st.byDay.map (fun p => p.1)).Nodup
  pvsum_eq : (st.byDay.map (fun p => p.2.pv)).sum = st.totalPv
  pv_eq : ∀ d, (bucketGetD st.byDay d).pv = dayPvSpec tz reads d
  users_nodup : ∀ d, (bucketGetD st.byDay d).users.Nodup
  users_mem : ∀ d a, a ∈ (bucketGetD st.byDay d).users ↔ a ∈ uidsOnDay tz reads d
  find_none : ∀ d, mapFind st.byDay d = none → readsOnDay tz reads d = []

theorem aggFold_inv (tz : Int) (reads : List ReadEvent) :
    FoldInv tz reads (aggFold tz reads) := by
  induction reads using List.reverseRecOn with
  | nil =>
    refine ⟨rfl, List.nodup_nil, ?_, List.nodup_nil, rfl, ?_, ?_, ?_, ?_⟩
    · intro a; simp [aggFold, initAggState, validReads]
    · intro d; simp [aggFold, initAggState, bucketGetD, mapFind, dayPvSpec, readsOnDay, validReads]
    · intro d; simp [aggFold, initAggState, bucketGetD, mapFind]
    · intro d a; simp [aggFold, initAggState, bucketGetD, mapFind, uidsOnDay, readsOnDay, validReads]
    · intro d _; simp [readsOnDay, validReads]
  | append_singleton xs x ih =>
    rw [aggFold_append_singleton]
    by_cases hv : isValidEvent x = true
    · obtain ⟨ts, hts, hpos⟩ := isValidEvent_iff.mp hv
      rw [step_valid hts hpos]
      set st := aggFold tz xs with hst
      set d0 := eventDay tz x with hd0
      set b0 := bucketGetD st.byDay d0 with hb0
      refine ⟨?_, nodup_insertNew ih.global_nodup, ?_, ?_, ?_, ?_, ?_, ?_, ?_⟩
      · rw [validReads_append_valid hv]
        simp [ih.totalPv_eq]
      · intro a
        rw [mem_insertNew, ih.global_mem a, validReads_append_valid hv]
        simp
      · show ((mapSet st.byDay d0 _).map (fun p => p.1)).Nodup
        rw [mapSet_keys]
        split
        · next hnone =>
          rw [List.nodup_append]
          exact ⟨ih.keys_nodup, List.nodup_singleton _,
            by simpa using fun hmem => (mapFind_eq_none_iff.mp hnone) hmem⟩
        · exact ih.keys_nodup
      · show ((mapSet st.byDay d0 _).map (fun p => p.2.pv)).sum = st.totalPv + 1
        cases hfind : mapFind st.byDay d0 with
        | none =>
          rw [mapSet_pvsum_of_none _ hfind, ih.pvsum_eq]
          have : b0.pv = 0 := by rw [hb0, bucketGetD, hfind]; rfl
          simp [this]
        | some bb =>
          have hbb : b0 = bb := by rw [hb0, bucketGetD, hfind]; rfl
          have := mapSet_pvsum_of_some (m := st.byDay) (d := d0)
            (⟨b0.pv + 1, insertNew b0.users (uidOf x)⟩ : Bucket) hfind
          rw [ih.pvsum_eq] at this
          subst hbb
          dsimp only at this ⊢
          omega
      · intro d
        by_cases hd : d = d0
        · subst hd
          rw [bucketGetD, mapFind_mapSet_self]
          show b0.pv + 1 = _
          rw [ih.pv_eq d0, hd0]
          simp [dayPvSpec, readsOnDay_append_valid_self hv]
        · rw [bucketGetD, mapFind_mapSet_ne _ _ hd, ← bucketGetD, ih.pv_eq d]
          simp [dayPvSpec, readsOnDay_append_valid_ne hv (hd0 ▸ hd)]
      · intro d
        by_cases hd : d = d0
        · subst hd
          rw [bucketGetD, mapFind_mapSet_self]
          exact nodup_insertNew (ih.users_nodup d0)
        · rw [bucketGetD, mapFind_mapSet_ne _ _ hd, ← bucketGetD]
          exact ih.users_nodup d
      · intro d a
        by_cases hd : d = d0
        · subst hd
          rw [bucketGetD, mapFind_mapSet_self]
          show a ∈ insertNew b0.users (uidOf x) ↔ _
          rw [mem_insertNew, ih.users_mem d0 a, hd0, uidsOnDay_append_valid_self hv]
          simp
        · rw [bucketGetD, mapFind_mapSet_ne _ _ hd, ← bucketGetD, ih.users_mem d a,
            uidsOnDay_append_valid_ne hv (hd0 ▸ hd)]
      · intro d hfind
        by_cases hd : d = d0
        · subst hd
          rw [mapFind_mapSet_self] at hfind
          exact absurd hfind (by simp)
        · rw [mapFind_mapSet_ne _ _ hd] at hfind
          rw [readsOnDay_append_valid_ne hv (hd0 ▸ hd)]
          exact ih.find_none d hfind
    · have hv' : isValidEvent x = false := by
        cases hvv : isValidEvent x
        · rfl
        · exact absurd hvv hv
      rw [step_invalid hv']
      exact ⟨by rw [ih.totalPv_eq, validReads_append_invalid hv'],
        ih.global_nodup,
        fun a => by rw [ih.global_mem a, validReads_append_invalid hv'],
        ih.keys_nodup, ih.pvsum_eq,
        fun d => by rw [ih.pv_eq d]; simp [dayPvSpec, readsOnDay_append_invalid hv'],
        ih.users_nodup,
        fun d a => by rw [ih.users_mem d a, uidsOnDay_append_invalid hv'],
        fun d hf => by rw [readsOnDay_append_invalid hv']; exact ih.find_none d hf⟩

/-! Derived characterizations of the two aggregators' outputs. -/

/-- A duplicate-free list with the same members as a finset has its
cardinality as length. -/
theorem length_eq_card_finset {s : List String} {F : Finset String}
    (hnd : s.Nodup) (hmem : ∀ a, a ∈ s ↔ a ∈ F) : s.length = F.card := by
  have : s.toFinset = F := by
    ext a
    simp [List.mem_toFinset, hmem]
  rw [← List.toFinset_card_of_nodup hnd, this]

theorem bucket_users_length (tz : Int) (reads : List ReadEvent) (d : Int) :
    (bucketGetD (aggFold tz reads).byDay d).users.length = dayUvSpec tz reads d :=
  length_eq_card_toFinset ((aggFold_inv tz reads).users_nodup d)
    ((aggFold_inv tz reads).users_mem d)

theorem global_users_length (tz : Int) (reads : List ReadEvent) :
    (aggFold tz reads).globalUsers.length = totalUvSpec reads :=
  length_eq_card_toFinset (aggFold_inv tz reads).global_nodup
    (aggFold_inv tz reads).global_mem

theorem uidsOnDay_of_find_none {tz : Int} {reads : List ReadEvent} {d : Int}
    (h : mapFind (aggFold tz reads).byDay d = none) : uidsOnDay tz reads d = [] := by
  rw [uidsOnDay, (aggFold_inv tz reads).find_none d h]
  rfl

theorem mem_collect_aux (m : List (Int × Bucket)) (ds : List Int) (acc : List String)
    (a : String) :
    (a ∈ ds.foldl
        (fun acc d =>
          match mapFind m d with
          | some b => addAll acc b.users
          | none => acc)
        acc) ↔
      a ∈ acc ∨ ∃ d ∈ ds, ∃ b, mapFind m d = some b ∧ a ∈ b.users := by
  induction ds generalizing acc with
  | nil => simp
  | cons d ds ih =>
    rw [List.foldl_cons, ih]
    cases hfind : mapFind m d with
    | none => simp [hfind]
    | some b =>
      rw [mem_addAll]
      simp only [List.mem_cons]
      constructor
      · rintro (⟨h | h⟩ | h)
        · exact Or.inl h
        · exact Or.inr ⟨d, Or.inl rfl, b, hfind, h⟩
        · obtain ⟨d', hd', hb⟩ := h
          exact Or.inr ⟨d', Or.inr hd', hb⟩
      · rintro (h | ⟨d', hd' | hd', b', hb', ha⟩)
        · exact Or.inl (Or.inl h)
        · subst hd'
          rw [hfind] at hb'
          cases hb'
          exact Or.inl (Or.inr ha)
        · exact Or.inr ⟨d', hd', b', hb', ha⟩

theorem nodup_collect_aux (m : List (Int × Bucket)) (ds : List Int) (acc : List String)
    (h : acc.Nodup) :
    (ds.foldl
        (fun acc d =>
          match mapFind m d with
          | some b => addAll acc b.users
          | none => acc)
        acc).Nodup := by
  induction ds generalizing acc with
  | nil => exact h
  | cons d ds ih =>
    rw [List.foldl_cons]
    cases hfind : mapFind m d with
    | none => simpa [hfind] using ih acc h
    | some b => simpa [hfind] using ih (addAll acc b.users) (nodup_addAll h)

theorem mem_unionUsersSpec {tz : Int} {reads : List ReadEvent} {ds : List Int} {a : String} :
    a ∈ unionUsersSpec tz reads ds ↔ ∃ d ∈ ds, a ∈ uidsOnDay tz reads d := by
  induction ds with
  | nil => simp [unionUsersSpec]
  | cons d ds ih =>
    rw [unionUsersSpec, List.foldr_cons]
    rw [show (List.foldr (fun d s => (uidsOnDay tz reads d).toFinset ∪ s) ∅ ds) =
      unionUsersSpec tz reads ds from rfl] at *
    simp [Finset.mem_union, ih, List.mem_toFinset]

theorem collectUsers_length (tz : Int) (reads : List ReadEvent) (ds : List Int) :
    (collectUsers (aggFold tz reads).byDay ds).length = (unionUsersSpec tz reads ds).card := by
  apply length_eq_card_finset (nodup_collect_aux _ _ _ List.nodup_nil)
  intro a
  rw [mem_collect_aux, mem_unionUsersSpec]
  constructor
  · rintro (h | ⟨d, hd, b, hb, ha⟩)
    · simp at h
    · refine ⟨d, hd, ?_⟩
      rw [← (aggFold_inv tz reads).users_mem d a] at *
      rw [bucketGetD, hb]
      exact ha
  · rintro ⟨d, hd, ha⟩
    right
    cases hfind : mapFind (aggFold tz reads).byDay d with
    | none => rw [uidsOnDay_of_find_none hfind] at ha; simp at ha
    | some b =>
      refine ⟨d, hd, b, hfind, ?_⟩
      have := ((aggFold_inv tz reads).users_mem d a).mpr ha
      rw [bucketGetD, hfind] at this
      exact this

/-- The trailing-window aggregator, field by field, in terms of the
spec-side reference functions. -/
theorem aggregateDailyPvUv_spec (tz now : Int) (reads : List ReadEvent) :
    (aggregateDailyPvUv tz now reads).days = getLastNDays 10 tz now ∧
    (aggregateDailyPvUv tz now reads).pvSeries =
      (getLastNDays 10 tz now).map (fun d => dayPvSpec tz reads d) ∧
    (aggregateDailyPvUv tz now reads).uvSeries =
      (getLastNDays 10 tz now).map (fun d => dayUvSpec tz reads d) ∧
    (aggregateDailyPvUv tz now reads).totalPv = (validReads reads).length ∧
    (aggregateDailyPvUv tz now reads).totalUv = totalUvSpec reads ∧
    (aggregateDailyPvUv tz now reads).yesterdayDau = dayUvSpec tz reads (ymd tz now - 1) ∧
    (aggregateDailyPvUv tz now reads).wau =
      (unionUsersSpec tz reads (getLastNDays 7 tz now)).card := by
  refine ⟨rfl, ?_, ?_, (aggFold_inv tz reads).totalPv_eq, global_users_length tz reads, ?_, ?_⟩
  · exact List.map_eq_map_iff.mpr fun d _ => (aggFold_inv tz reads).pv_eq d
  · exact List.map_eq_map_iff.mpr fun d _ => bucket_users_length tz reads d
  · show (match mapFind (aggFold tz reads).byDay (ymd tz now - 1) with
      | some b => b.users.length
      | none => 0) = _
    cases hfind : mapFind (aggFold tz reads).byDay (ymd tz now - 1) with
    | none =>
      rw [dayUvSpec, uidsOnDay_of_find_none hfind]
      rfl
    | some b =>
      have := bucket_users_length tz reads (ymd tz now - 1)
      rw [bucketGetD, hfind] at this
      exact this
  · exact collectUsers_length tz reads (getLastNDays 7 tz now)

/-- The all-history aggregator, field by field. -/
theorem aggregateDailyPvUvAll_spec (tz : Int) (reads : List ReadEvent) :
    (aggregateDailyPvUvAll tz reads).days =
      sortInts ((aggFold tz reads).byDay.map (fun p => p.1)) ∧
    (aggregateDailyPvUvAll tz reads).pvSeries =
      (aggregateDailyPvUvAll tz reads).days.map (fun d => dayPvSpec tz reads d) ∧
    (aggregateDailyPvUvAll tz reads).uvSeries =
      (aggregateDailyPvUvAll tz reads).days.map (fun d => dayUvSpec tz reads d) ∧
    (aggregateDailyPvUvAll tz reads).totalPv = (validReads reads).length ∧
    (aggregateDailyPvUvAll tz reads).totalUv = totalUvSpec reads := by
  refine ⟨rfl, ?_, ?_, (aggFold_inv tz reads).totalPv_eq, global_users_length tz reads⟩
  · exact List.map_eq_map_iff.mpr fun d _ => (aggFold_inv tz reads).pv_eq d
  · exact List.map_eq_map_iff.mpr fun d _ => bucket_users_length tz reads d

/-- The sum of the all-history per-day page views is the global total. -/
theorem aggAll_pvSeries_sum (tz : Int) (reads : List ReadEvent) :
    (aggregateDailyPvUvAll tz reads).pvSeries.sum = (aggregateDailyPvUvAll tz reads).totalPv := by
  show ((sortInts ((aggFold tz reads).byDay.map (fun p => p.1))).map
    (fun d => (bucketGetD (aggFold tz reads).byDay d).pv)).sum = (aggFold tz reads).totalPv
  set st := aggFold tz reads with hst
  have hperm := (sortInts_perm (st.byDay.map (fun p => p.1))).map
    (fun d => (bucketGetD st.byDay d).pv)
  rw [hperm.sum_eq, List.map_map]
  have : st.byDay.map ((fun d => (bucketGetD st.byDay d).pv) ∘ (fun p => p.1)) =
      st.byDay.map (fun p => p.2.pv) := by
    apply List.map_eq_map_iff.mpr
    intro p hp
    show (bucketGetD st.byDay p.1).pv = p.2.pv
    rw [bucketGetD, mapFind_of_mem_nodup (aggFold_inv tz reads).keys_nodup hp]
    rfl
  rw [this, (aggFold_inv tz reads).pvsum_eq]

/-! Helper lemmas: duplicate counting, empty histories, cache and handler. -/

theorem card_eq_length_nodup {l : List String} (h : l.toFinset.card = l.length) :
    l.Nodup := by
  rw [List.card_toFinset] at h
  have := (List.dedup_sublist l).eq_of_length h
  rw [← this]
  exact List.nodup_dedup l

theorem collectUsers_nil (ds : List Int) : collectUsers [] ds = [] := by
  have : ∀ acc : List String,
      ds.foldl
        (fun acc d =>
          match mapFind ([] : List (Int × Bucket)) d with
          | some b => addAll acc b.users
          | none => acc)
        acc = acc := by
    induction ds with
    | nil => intro acc; rfl
    | cons d ds ih => intro acc; exact ih acc
  exact this []

theorem aggregateDailyPvUv_nil (tz now : Int) :
    aggregateDailyPvUv tz now [] =
      ⟨getLastNDays 10 tz now, List.replicate 10 0, List.replicate 10 0, 0, 0, 0, 0⟩ := by
  have hfold : aggFold tz [] = initAggState := rfl
  simp only [aggregateDailyPvUv, hfold, initAggState, collectUsers_nil, bucketGetD,
    mapFind, Option.getD_none, List.length_nil]
  rw [show (List.map (fun _ => (0 : Nat)) (getLastNDays 10 tz now)) =
    List.replicate (getLastNDays 10 tz now).length 0 from List.map_const' _ _,
    getLastNDays_length]

theorem aggregateDailyPvUvAll_nil (tz : Int) :
    aggregateDailyPvUvAll tz [] = ⟨[], [], [], 0, 0⟩ := rfl

theorem cacheFind_cacheSet_self (cache : Cache) (d : String) (e : CacheEntry) :
    cacheFind (cacheSet cache d e) d = some e := by
  induction cache with
  | nil => simp [cacheSet, cacheFind]
  | cons kv rest ih =>
    obtain ⟨k, v⟩ := kv
    by_cases hk : k = d
    · simp [cacheSet, hk, cacheFind]
    · simp [cacheSet, hk, cacheFind, ih]

theorem getStats_hit (tz now : Int) (fs : FileSys) (cache : Cache) (docId : String)
    (e : CacheEntry) (he : cacheFind cache docId = some e) (hd : e.date = ymd tz now) :
    getStats tz fs cache docId false now = (e.stats, cache) := by
  simp [getStats, he, hd]

theorem getStats_recompute (tz now : Int) (fs : FileSys) (cache : Cache) (docId : String)
    (force : Bool)
    (h : cacheFind cache docId = none ∨
      (∀ e, cacheFind cache docId = some e → e.date ≠ ymd tz now) ∨ force = true) :
    getStats tz fs cache docId force now =
      (aggregateDailyPvUv tz now (readLogForDoc fs docId),
       cacheSet cache docId ⟨ymd tz now, aggregateDailyPvUv tz now (readLogForDoc fs docId)⟩) := by
  cases hc : cacheFind cache docId with
  | none => simp [getStats, hc]
  | some e =>
    rcases h with h | h | h
    · rw [h] at hc; cases hc
    · have hne := h e hc
      simp [getStats, hc, hne]
    · subst h
      simp [getStats, hc]

theorem handlerStep_cooldown {tz now : Int} (fs : FileSys) {st : SrvState} (docId : String)
    (h : now - st.lastReloadTime < 1800000) :
    handlerStep tz fs st docId true now = handlerStep tz fs st docId false now := by
  simp [handlerStep, h]

theorem handlerStep_honored {tz now : Int} (fs : FileSys) {st : SrvState} (docId : String)
    (h : ¬(now - st.lastReloadTime < 1800000)) :
    handlerStep tz fs st docId true now =
      ((getStats tz fs st.cache docId true now).1,
       ⟨(getStats tz fs st.cache docId true now).2, now⟩) := by
  simp [handlerStep, h]

theorem aggAll_congr {tz : Int} {xs ys : List ReadEvent}
    (h : aggFold tz xs = aggFold tz ys) :
    aggregateDailyPvUvAll tz xs = aggregateDailyPvUvAll tz ys := by
  unfold aggregateDailyPvUvAll
  rw [h]

theorem aggWin_congr {tz now : Int} {xs ys : List ReadEvent}
    (h : aggFold tz xs = aggFold tz ys) :
    aggregateDailyPvUv tz now xs = aggregateDailyPvUv tz now ys := by
  unfold aggregateDailyPvUv
  rw [h]

/-! The claim theorems. -/

/-- Claim C4: for every event sequence, in both aggregator variants
`totalUv ≤ totalPv`, and equality forces every visitor to have viewed
exactly once (the valid events' resolved-identifier list has no
duplicate). -/
theorem c4_totalUv_le_totalPv (tz now : Int) (reads : List ReadEvent) :
    (aggregateDailyPvUv tz now reads).totalUv ≤ (aggregateDailyPvUv tz now reads).totalPv ∧
    (aggregateDailyPvUvAll tz reads).totalUv ≤ (aggregateDailyPvUvAll tz reads).totalPv ∧
    ((aggregateDailyPvUv tz now reads).totalUv = (aggregateDailyPvUv tz now reads).totalPv →
      ((validReads reads).map uidOf).Nodup) ∧
    ((aggregateDailyPvUvAll tz reads).totalUv = (aggregateDailyPvUvAll tz reads).totalPv →
      ((validReads reads).map uidOf).Nodup) := by
  obtain ⟨-, -, -, hpv, huv, -, -⟩ := aggregateDailyPvUv_spec tz now reads
  obtain ⟨-, -, -, hpv2, huv2⟩ := aggregateDailyPvUvAll_spec tz reads
  have hlen : ((validReads reads).map uidOf).length = (validReads reads).length :=
    List.length_map _ _
  have hle : totalUvSpec reads ≤ (validReads reads).length := by
    rw [totalUvSpec, ← hlen]
    exact List.toFinset_card_le _
  have heq : totalUvSpec reads = (validReads reads).length →
      ((validReads reads).map uidOf).Nodup := by
    intro h
    exact card_eq_length_nodup (by rw [totalUvSpec] at h; rw [h, hlen])
  exact ⟨by rw [hpv, huv]; exact hle, by rw [hpv2, huv2]; exact hle,
    by rw [hpv, huv]; exact heq, by rw [hpv2, huv2]; exact heq⟩

/-- Claim C5: for every event sequence, the sum of the all-history per-day
page-view series equals the global page-view total. -/
theorem c5_pvSeries_sum_eq_totalPv (tz : Int) (reads : List ReadEvent) :
    (aggregateDailyPvUvAll tz reads).pvSeries.sum = (aggregateDailyPvUvAll tz reads).totalPv :=
  aggAll_pvSeries_sum tz reads

/-- Claim C7: the worked example — two views by "a" on one day and one view
by "b" on the following day give, on the all-history variant, the two day
labels in order, pvSeries `[2, 1]`, uvSeries `[1, 1]`, `totalPv = 3`,
`totalUv = 2` (timestamps: noon of two consecutive calendar days, which
are distinct with the first earlier). -/
theorem c7_worked_example :
    aggregateDailyPvUvAll 0
        [⟨"a", "", some 43200000⟩, ⟨"a", "", some 43200000⟩, ⟨"b", "", some 129600000⟩] =
      ⟨[ymd 0 43200000, ymd 0 129600000], [2, 1], [1, 1], 3, 2⟩ ∧
    ymd 0 43200000 ≠ ymd 0 129600000 ∧ (43200000 : Int) < 129600000 := by
  refine ⟨by decide, by decide, by decide⟩

/-- Claim C2: the trailing-window aggregate has exactly the 10 calendar
days ending today, ascending; the pv/uv series are positionally the
per-day counts (hence 0 on days with no valid events); `yesterdayDau` is
the unique-visitor cardinality of the day before today (0 if absent); and
`wau` is the cardinality of the union of the visitor sets of the 7 days
ending today. -/
theorem c2_trailing_window (tz now : Int) (reads : List ReadEvent) :
    (aggregateDailyPvUv tz now reads).days.length = 10 ∧
    (∀ i : Nat, i < 10 →
      (aggregateDailyPvUv tz now reads).days.getD i 0 = ymd tz now - 9 + (i : Int)) ∧
    (aggregateDailyPvUv tz now reads).days.getD 9 0 = ymd tz now ∧
    (∀ i : Nat, i + 1 < 10 →
      (aggregateDailyPvUv tz now reads).days.getD i 0 <
        (aggregateDailyPvUv tz now reads).days.getD (i + 1) 0) ∧
    (aggregateDailyPvUv tz now reads).pvSeries =
      (aggregateDailyPvUv tz now reads).days.map (fun d => dayPvSpec tz reads d) ∧
    (aggregateDailyPvUv tz now reads).uvSeries =
      (aggregateDailyPvUv tz now reads).days.map (fun d => dayUvSpec tz reads d) ∧
    (∀ d, readsOnDay tz reads d = [] →
      dayPvSpec tz reads d = 0 ∧ dayUvSpec tz reads d = 0) ∧
    (aggregateDailyPvUv tz now reads).yesterdayDau = dayUvSpec tz reads (ymd tz now - 1) ∧
    (aggregateDailyPvUv tz now reads).wau =
      (unionUsersSpec tz reads (getLastNDays 7 tz now)).card ∧
    (getLastNDays 7 tz now).length = 7 ∧
    (∀ i : Nat, i < 7 → (getLastNDays 7 tz now).getD i 0 = ymd tz now - 6 + (i : Int)) := by
  obtain ⟨hdays, hpv, huv, -, -, hdau, hwau⟩ := aggregateDailyPvUv_spec tz now reads
  have hget : ∀ i : Nat, i < 10 →
      (aggregateDailyPvUv tz now reads).days.getD i 0 = ymd tz now - 9 + (i : Int) := by
    intro i hi
    rw [hdays, getLastNDays_getD tz now hi]
    omega
  refine ⟨by rw [hdays, getLastNDays_length], hget, ?_, ?_, ?_, ?_, ?_, hdau, hwau,
    getLastNDays_length 7 tz now, ?_⟩
  · rw [hget 9 (by omega)]; omega
  · intro i hi
    rw [hget i (by omega), hget (i + 1) hi]
    omega
  · rw [hpv, hdays]
  · rw [huv, hdays]
  · intro d hd
    constructor
    · rw [dayPvSpec, hd]; rfl
    · rw [dayUvSpec, uidsOnDay, hd]; rfl
  · intro i hi
    rw [getLastNDays_getD tz now hi]
    omega

/-- Claim C6: the aggregation loop discards exactly the events whose
timestamp is not a finite positive number (they change neither buckets nor
totals in either variant), and every valid event adds one page view to its
local-calendar-day bucket and puts its resolved identifier — name, else
nickname, else "unknown" — into that day's visitor set and the global
visitor set. -/
theorem c6_event_contribution (tz now : Int) (reads : List ReadEvent) (r : ReadEvent) :
    (isValidEvent r = false →
      aggregateDailyPvUvAll tz (reads ++ [r]) = aggregateDailyPvUvAll tz reads ∧
      aggregateDailyPvUv tz now (reads ++ [r]) = aggregateDailyPvUv tz now reads) ∧
    (isValidEvent r = true →
      (bucketGetD (aggFold tz (reads ++ [r])).byDay (eventDay tz r)).pv =
        (bucketGetD (aggFold tz reads).byDay (eventDay tz r)).pv + 1 ∧
      uidOf r ∈ (bucketGetD (aggFold tz (reads ++ [r])).byDay (eventDay tz r)).users ∧
      uidOf r ∈ (aggFold tz (reads ++ [r])).globalUsers ∧
      (aggFold tz (reads ++ [r])).totalPv = (aggFold tz reads).totalPv + 1) ∧
    (isValidEvent r = true ↔ ∃ ts, r.lastTs = some ts ∧ 0 < ts) ∧
    uidOf r =
      (if r.name ≠ "" then r.name else if r.nickname ≠ "" then r.nickname else "unknown") ∧
    (∀ ts, r.lastTs = some ts → eventDay tz r = ymd tz ts) := by
  refine ⟨?_, ?_, isValidEvent_iff, rfl, ?_⟩
  · intro hv
    have := aggFold_append_singleton tz reads r
    rw [step_invalid hv] at this
    exact ⟨aggAll_congr this, aggWin_congr this⟩
  · intro hv
    obtain ⟨ts, hts, hpos⟩ := isValidEvent_iff.mp hv
    have hstep := aggFold_append_singleton tz reads r
    rw [step_valid hts hpos] at hstep
    rw [hstep]
    refine ⟨?_, ?_, mem_insertNew.mpr (Or.inr rfl), rfl⟩
    · show (bucketGetD (mapSet (aggFold tz reads).byDay (eventDay tz r) _) (eventDay tz r)).pv = _
      rw [bucketGetD, mapFind_mapSet_self]
      rfl
    · show uidOf r ∈ (bucketGetD (mapSet (aggFold tz reads).byDay (eventDay tz r) _)
        (eventDay tz r)).users
      rw [bucketGetD, mapFind_mapSet_self]
      exact mem_insertNew.mpr (Or.inr rfl)
  · intro ts hts
    rw [eventDay, hts]
    rfl

/-- Claim C1: with `forceRefresh` false and a cache entry dated today,
`getStats` returns the cached result and leaves the cache alone, without
consulting the filesystem (the result is the same for any filesystem
state); in every other case it aggregates the current log contents, stores
the result keyed by today's date, and returns it. -/
theorem c1_getStats_cache (tz now : Int) (fs fs2 : FileSys) (cache : Cache)
    (docId : String) :
    (∀ e, cacheFind cache docId = some e → e.date = ymd tz now →
      getStats tz fs cache docId false now = (e.stats, cache) ∧
      getStats tz fs cache docId false now = getStats tz fs2 cache docId false now) ∧
    (∀ force : Bool,
      (cacheFind cache docId = none ∨
        (∀ e, cacheFind cache docId = some e → e.date ≠ ymd tz now) ∨ force = true) →
      getStats tz fs cache docId force now =
        (aggregateDailyPvUv tz now (readLogForDoc fs docId),
         cacheSet cache docId ⟨ymd tz now, aggregateDailyPvUv tz now (readLogForDoc fs docId)⟩)) := by
  constructor
  · intro e he hd
    rw [getStats_hit tz now fs cache docId e he hd, getStats_hit tz now fs2 cache docId e he hd]
    exact ⟨rfl, rfl⟩
  · intro force h
    exact getStats_recompute tz now fs cache docId force h

/-- Claim C3: the refresh gate is process-wide with a 30-minute (1800000
ms) cooldown — a forced refresh that is honored both recomputes from the
current log and records its time as the new `LastReloadTime`; any second
refresh-carrying request within 30 minutes of the recorded time behaves
exactly like a non-forcing request (for any document), so only the first
forced recomputation happens. -/
theorem c3_refresh_cooldown (tz : Int) (fs1 fs2 : FileSys) (st : SrvState)
    (d1 d2 : String) (t1 t2 : Int) :
    (¬(t1 - st.lastReloadTime < 1800000) →
      (handlerStep tz fs1 st d1 true t1).2.lastReloadTime = t1 ∧
      (handlerStep tz fs1 st d1 true t1).1 =
        aggregateDailyPvUv tz t1 (readLogForDoc fs1 d1)) ∧
    (t2 - (handlerStep tz fs1 st d1 true t1).2.lastReloadTime < 1800000 →
      handlerStep tz fs2 (handlerStep tz fs1 st d1 true t1).2 d2 true t2 =
        handlerStep tz fs2 (handlerStep tz fs1 st d1 true t1).2 d2 false t2) := by
  constructor
  · intro h
    rw [handlerStep_honored fs1 d1 h]
    refine ⟨rfl, ?_⟩
    rw [getStats_recompute tz t1 fs1 st.cache d1 true (Or.inr (Or.inr rfl))]
  · intro h
    exact handlerStep_cooldown fs2 d2 h

/-- Claim C8: an inaccessible storage directory, an identifier matched by
no candidate file, and a selected file whose content does not parse as a
JSON array all make the read-log empty, and the all-history aggregate of
an empty history is the all-zero result — no error is raised (the
functions are total). -/
theorem c8_missing_log_zero (tz : Int) (fs : FileSys) (docId : String) :
    (fs.accessible = false →
      readLogForDoc fs docId = [] ∧
      aggregateDailyPvUvAll tz (readLogForDoc fs docId) = ⟨[], [], [], 0, 0⟩) ∧
    (fs.files.filter (isCandidate docId) = [] →
      readLogForDoc fs docId = [] ∧
      aggregateDailyPvUvAll tz (readLogForDoc fs docId) = ⟨[], [], [], 0, 0⟩) ∧
    (∀ f, targetFile fs docId = some f →
      f.content = FileContent.invalid ∨ f.content = FileContent.nonArray →
      readLogForDoc fs docId = [] ∧
      aggregateDailyPvUvAll tz (readLogForDoc fs docId) = ⟨[], [], [], 0, 0⟩) := by
  refine ⟨?_, ?_, ?_⟩
  · intro h
    have ht : targetFile fs docId = none := by simp [targetFile, h]
    have hr : readLogForDoc fs docId = [] := by rw [readLogForDoc, ht]
    exact ⟨hr, by rw [hr]; exact aggregateDailyPvUvAll_nil tz⟩
  · intro h
    have hr : readLogForDoc fs docId = [] := by
      rw [readLogForDoc]
      cases hacc : fs.accessible with
      | false => simp [targetFile, hacc]
      | true => simp [targetFile, hacc, h]
    exact ⟨hr, by rw [hr]; exact aggregateDailyPvUvAll_nil tz⟩
  · intro f ht hc
    have hr : readLogForDoc fs docId = [] := by
      rcases hc with hc | hc <;> simp [readLogForDoc, ht, hc]
    exact ⟨hr, by rw [hr]; exact aggregateDailyPvUvAll_nil tz⟩

/-- Claim C9: an ingestion request missing any of `docName`, `docId`,
`docType` or `ts` (JavaScript-falsy) gets the structured error payload —
whose `code` 1 is distinct from the success `code` 0 — with the storage
untouched, before any write; any request that passes validation gets the
success payload. -/
theorem c9_ingestion_validation (b : HookBody) (files : List StoredFile) (m : Int) :
    ((b.docName = "" ∨ b.docId = "" ∨ b.docType = "" ∨ tsFalsy b.ts = true) →
      docHookHandler b files m = (missingFieldsResp, files) ∧
      missingFieldsResp.code = 1 ∧ missingFieldsResp.status = "error") ∧
    (¬(b.docName = "" ∨ b.docId = "" ∨ b.docType = "" ∨ tsFalsy b.ts = true) →
      (docHookHandler b files m).1 = hookOkResp) ∧
    missingFieldsResp.code ≠ hookOkResp.code := by
  refine ⟨?_, ?_, by decide⟩
  · intro h
    rw [docHookHandler, if_pos h]
    exact ⟨rfl, rfl, rfl⟩
  · intro h
    rw [docHookHandler, if_neg h]

/-- Claim C10 (implicit): if the first `getStats` of a calendar day finds
no usable record file, the all-zero result is cached under today's date;
every later non-forced same-day call returns that zero result and changes
nothing, whatever the filesystem now holds; a forced refresh, or a call on
a different day, re-aggregates the current log. -/
theorem c10_zero_cached_all_day (tz now now2 : Int) (fs fs2 : FileSys) (cache : Cache)
    (docId : String)
    (hmiss : ∀ e, cacheFind cache docId = some e → e.date ≠ ymd tz now)
    (hempty : readLogForDoc fs docId = []) :
    (getStats tz fs cache docId false now).1 = aggregateDailyPvUv tz now [] ∧
    (getStats tz fs cache docId false now).1.pvSeries = List.replicate 10 0 ∧
    (getStats tz fs cache docId false now).1.uvSeries = List.replicate 10 0 ∧
    (getStats tz fs cache docId false now).1.totalPv = 0 ∧
    (getStats tz fs cache docId false now).1.totalUv = 0 ∧
    (getStats tz fs cache docId false now).1.yesterdayDau = 0 ∧
    (getStats tz fs cache docId false now).1.wau = 0 ∧
    (ymd tz now2 = ymd tz now →
      getStats tz fs2 (getStats tz fs cache docId false now).2 docId false now2 =
        ((getStats tz fs cache docId false now).1,
         (getStats tz fs cache docId false now).2)) ∧
    (getStats tz fs2 (getStats tz fs cache docId false now).2 docId true now2).1 =
      aggregateDailyPvUv tz now2 (readLogForDoc fs2 docId) ∧
    (ymd tz now2 ≠ ymd tz now →
      (getStats tz fs2 (getStats tz fs cache docId false now).2 docId false now2).1 =
        aggregateDailyPvUv tz now2 (readLogForDoc fs2 docId)) := by
  have h1 := getStats_recompute tz now fs cache docId false (Or.inr (Or.inl hmiss))
  rw [hempty] at h1
  have hzero := aggregateDailyPvUv_nil tz now
  have hfind : cacheFind (getStats tz fs cache docId false now).2 docId =
      some ⟨ymd tz now, aggregateDailyPvUv tz now []⟩ := by
    rw [h1]
    exact cacheFind_cacheSet_self cache docId _
  refine ⟨by rw [h1], by rw [h1, hzero], by rw [h1, hzero], by rw [h1, hzero],
    by rw [h1, hzero], by rw [h1, hzero], by rw [h1, hzero], ?_, ?_, ?_⟩
  · intro hday
    have := getStats_hit tz now2 fs2 (getStats tz fs cache docId false now).2 docId
      ⟨ymd tz now, aggregateDailyPvUv tz now []⟩ hfind (by simpa using hday.symm)
    rw [this, h1]
  · have := getStats_recompute tz now2 fs2 (getStats tz fs cache docId false now).2 docId
      true (Or.inr (Or.inr rfl))
    rw [this]
  · intro hday
    have hstale : ∀ e, cacheFind (getStats tz fs cache docId false now).2 docId = some e →
        e.date ≠ ymd tz now2 := by
      intro e he
      rw [hfind] at he
      cases he
      simpa using fun h => hday h.symm
    have := getStats_recompute tz now2 fs2 (getStats tz fs cache docId false now).2 docId
      false (Or.inr (Or.inl hstale))
    rw [this]

/-! Concrete witnesses instantiating each conditional claim theorem. -/

/-- Witness for C1: a cache entry for "x" dated today is returned as-is
with the cache unchanged, and a forced lookup recomputes. -/
theorem c1_getStats_cache_witness :
    getStats 0 ⟨false, []⟩ [("x", ⟨0, ⟨[], [], [], 0, 0, 0, 0⟩⟩)] "x" false 0 =
      (⟨[], [], [], 0, 0, 0, 0⟩, [("x", ⟨0, ⟨[], [], [], 0, 0, 0, 0⟩⟩)]) ∧
    getStats 0 ⟨false, []⟩ [("x", ⟨0, ⟨[], [], [], 0, 0, 0, 0⟩⟩)] "x" true 0 =
      (aggregateDailyPvUv 0 0 (readLogForDoc ⟨false, []⟩ "x"),
       cacheSet [("x", ⟨0, ⟨[], [], [], 0, 0, 0, 0⟩⟩)] "x"
         ⟨ymd 0 0, aggregateDailyPvUv 0 0 (readLogForDoc ⟨false, []⟩ "x")⟩) := by
  obtain ⟨h1, h2⟩ := c1_getStats_cache 0 0 ⟨false, []⟩ ⟨true, []⟩
    [("x", ⟨0, ⟨[], [], [], 0, 0, 0, 0⟩⟩)] "x"
  exact ⟨(h1 ⟨0, ⟨[], [], [], 0, 0, 0, 0⟩⟩ (by decide) (by decide)).1,
    h2 true (Or.inr (Or.inr rfl))⟩

/-- Witness for C2 at an empty history, discharging each bounded-index and
empty-day hypothesis at a concrete value. -/
theorem c2_trailing_window_witness :
    (aggregateDailyPvUv 0 0 []).days.getD 0 0 = ymd 0 0 - 9 + ((0 : Nat) : Int) ∧
    (aggregateDailyPvUv 0 0 []).days.getD 0 0 < (aggregateDailyPvUv 0 0 []).days.getD 1 0 ∧
    (dayPvSpec 0 [] 5 = 0 ∧ dayUvSpec 0 [] 5 = 0) ∧
    (getLastNDays 7 0 0).getD 0 0 = ymd 0 0 - 6 + ((0 : Nat) : Int) := by
  obtain h := c2_trailing_window 0 0 []
  exact ⟨h.2.1 0 (by decide), h.2.2.2.1 0 (by decide),
    h.2.2.2.2.2.2.1 5 rfl, h.2.2.2.2.2.2.2.2.2.2 0 (by decide)⟩

/-- Witness for C3: a refresh 1800000 ms after the last reload is honored
and recorded; a second refresh 1 ms later is downgraded to a plain
lookup. -/
theorem c3_refresh_cooldown_witness :
    (handlerStep 0 ⟨false, []⟩ ⟨[], -1800000⟩ "d" true 0).2.lastReloadTime = 0 ∧
    (handlerStep 0 ⟨false, []⟩ ⟨[], -1800000⟩ "d" true 0).1 =
      aggregateDailyPvUv 0 0 (readLogForDoc ⟨false, []⟩ "d") ∧
    handlerStep 0 ⟨false, []⟩ (handlerStep 0 ⟨false, []⟩ ⟨[], -1800000⟩ "d" true 0).2 "e" true 1 =
      handlerStep 0 ⟨false, []⟩ (handlerStep 0 ⟨false, []⟩ ⟨[], -1800000⟩ "d" true 0).2
        "e" false 1 := by
  obtain ⟨h1, h2⟩ := c3_refresh_cooldown 0 ⟨false, []⟩ ⟨false, []⟩ ⟨[], -1800000⟩ "d" "e" 0 1
  obtain ⟨ha, hb⟩ := h1 (by decide)
  exact ⟨ha, hb, h2 (by decide)⟩

/-- Witness for C4: on a single-event history the totals are equal, so the
resolved-identifier list is duplicate-free. -/
theorem c4_totalUv_le_totalPv_witness :
    (aggregateDailyPvUv 0 0 [⟨"a", "", some 1⟩]).totalUv ≤
      (aggregateDailyPvUv 0 0 [⟨"a", "", some 1⟩]).totalPv ∧
    ((validReads [⟨"a", "", some 1⟩]).map uidOf).Nodup := by
  obtain h := c4_totalUv_le_totalPv 0 0 [⟨"a", "", some 1⟩]
  exact ⟨h.1, h.2.2.1 (by decide)⟩

/-- Witness for C6: an invalid event leaves the all-history aggregate
unchanged, and a valid one bumps its day bucket and the total by one. -/
theorem c6_event_contribution_witness :
    aggregateDailyPvUvAll 0 ([⟨"a", "", some 1⟩] ++ [⟨"b", "", none⟩]) =
      aggregateDailyPvUvAll 0 [⟨"a", "", some 1⟩] ∧
    (bucketGetD (aggFold 0 ([⟨"a", "", some 1⟩] ++ [⟨"c", "", some 2⟩])).byDay
        (eventDay 0 ⟨"c", "", some 2⟩)).pv =
      (bucketGetD (aggFold 0 [⟨"a", "", some 1⟩]).byDay (eventDay 0 ⟨"c", "", some 2⟩)).pv + 1 ∧
    (aggFold 0 ([⟨"a", "", some 1⟩] ++ [⟨"c", "", some 2⟩])).totalPv =
      (aggFold 0 [⟨"a", "", some 1⟩]).totalPv + 1 := by
  obtain hinv := (c6_event_contribution 0 0 [⟨"a", "", some 1⟩] ⟨"b", "", none⟩).1 (by decide)
  obtain hval := (c6_event_contribution 0 0 [⟨"a", "", some 1⟩] ⟨"c", "", some 2⟩).2.1 (by decide)
  exact ⟨hinv.1, hval.1, hval.2.2.2⟩

/-- Witness for C8: an inaccessible directory, no matching candidate, and
an unparseable selected file each yield the empty log and the all-zero
all-history aggregate. -/
theorem c8_missing_log_zero_witness :
    (readLogForDoc ⟨false, []⟩ "x" = [] ∧
      aggregateDailyPvUvAll 0 (readLogForDoc ⟨false, []⟩ "x") = ⟨[], [], [], 0, 0⟩) ∧
    (readLogForDoc ⟨true, []⟩ "x" = [] ∧
      aggregateDailyPvUvAll 0 (readLogForDoc ⟨true, []⟩ "x") = ⟨[], [], [], 0, 0⟩) ∧
    (readLogForDoc ⟨true, [⟨"a_x.t.json".data, 0, FileContent.invalid⟩]⟩ "x" = [] ∧
      aggregateDailyPvUvAll 0
        (readLogForDoc ⟨true, [⟨"a_x.t.json".data, 0, FileContent.invalid⟩]⟩ "x") =
        ⟨[], [], [], 0, 0⟩) := by
  refine ⟨(c8_missing_log_zero 0 ⟨false, []⟩ "x").1 rfl,
    (c8_missing_log_zero 0 ⟨true, []⟩ "x").2.1 (by decide),
    (c8_missing_log_zero 0 ⟨true, [⟨"a_x.t.json".data, 0, FileContent.invalid⟩]⟩ "x").2.2
      ⟨"a_x.t.json".data, 0, FileContent.invalid⟩ (by decide) (Or.inl rfl)⟩

/-- Witness for C9: a body with an empty `docName` gets the error payload
and unchanged storage; a complete body gets the success payload. -/
theorem c9_ingestion_validation_witness :
    docHookHandler ⟨"", "x", "t", some 1, none, false⟩ [] 0 = (missingFieldsResp, []) ∧
    (docHookHandler ⟨"d", "x", "t", some 1, none, false⟩ [] 0).1 = hookOkResp := by
  exact ⟨((c9_ingestion_validation ⟨"", "x", "t", some 1, none, false⟩ [] 0).1 (Or.inl rfl)).1,
    (c9_ingestion_validation ⟨"d", "x", "t", some 1, none, false⟩ [] 0).2.1 (by decide)⟩

/-- Witness for C10: with an empty cache and no record file, the zero
result is returned and cached; a later same-day lookup against a now
accessible store still returns it; a next-day lookup recomputes. -/
theorem c10_zero_cached_all_day_witness :
    (getStats 0 ⟨false, []⟩ [] "x" false 0).1 = aggregateDailyPvUv 0 0 [] ∧
    (getStats 0 ⟨false, []⟩ [] "x" false 0).1.totalPv = 0 ∧
    getStats 0 ⟨true, []⟩ (getStats 0 ⟨false, []⟩ [] "x" false 0).2 "x" false 1 =
      ((getStats 0 ⟨false, []⟩ [] "x" false 0).1,
       (getStats 0 ⟨false, []⟩ [] "x" false 0).2) ∧
    (getStats 0 ⟨true, []⟩ (getStats 0 ⟨false, []⟩ [] "x" false 0).2 "x" false 86400000).1 =
      aggregateDailyPvUv 0 86400000 (readLogForDoc ⟨true, []⟩ "x") := by
  obtain h := c10_zero_cached_all_day 0 0 1 ⟨false, []⟩ ⟨true, []⟩ [] "x"
    (fun e he => Option.noConfusion he) rfl
  obtain h2 := c10_zero_cached_all_day 0 0 86400000 ⟨false, []⟩ ⟨true, []⟩ [] "x"
    (fun e he => Option.noConfusion he) rfl
  exact ⟨h.1, h.2.2.2.1, h.2.2.2.2.2.2.2.1 (by decide),
    h2.2.2.2.2.2.2.2.2.2 (by decide)⟩

end Webhook
